import Mathlib

/-!
# Verification of the zapctxd contextualized logger

Shallow embedding of `logger.go` from `bool64/zapctxd`: a contextualized
logger over the zap backend.  Pure Go functions become Lean functions; the
mutable `zap.AtomicLevel` cell is modelled as a reference (index) into an
explicit store of levels; Go slices whose aliasing matters (the variadic
`keysAndValues` argument) are tracked explicitly by the scan function that
models the in-place structured-error expansion loop.

External collaborators (package `ctxd`, package `zap`) are modelled by the
interface they present, as the code consumes them:
  * a `ctxd` context carries an ordered field list, a force-debug flag and
    an optional output writer (`ctxd.Fields`, `ctxd.IsDebug`,
    `ctxd.WithDebug`, `ctxd.LogWriter`);
  * a `zapcore.Level` is an integer; a `LevelEnabler` answers
    `Enabled(lvl)`; `zap.AtomicLevel` is a mutable level cell; a zap
    logger/core pairs an encoder, a sink and a gate, plus options such as
    `AddCallerSkip`.
-/

namespace Zapctxd

/-- Log severity, mirroring `zapcore.Level`.  The numeric values are those
of zapcore: Debug = -1, Info = 0, Warn = 1, Error = 2, DPanic = 3,
Panic = 4, Fatal = 5. -/
inductive Level where
  | debug
  | info
  | warn
  | error
  | dpanic
  | panic_
  | fatal
deriving DecidableEq, Repr

/-- Numeric value of a level, as in zapcore (`InfoLevel` is the zero value). -/
def Level.toInt : Level → Int
  | .debug => -1
  | .info => 0
  | .warn => 1
  | .error => 2
  | .dpanic => 3
  | .panic_ => 4
  | .fatal => 5

/-- `zapcore.Level.Enabled`: a threshold level `a` enables `b` iff `b >= a`. -/
def Level.enables (a b : Level) : Bool := a.toInt ≤ b.toInt

/-- An output destination (`zapcore.WriteSyncer`).  `stdout` is the process
standard output; `writer id` stands for any other `io.Writer`. -/
inductive Sink where
  | stdout
  | writer (id : Nat)
deriving DecidableEq, Repr

/-- A `zap.Option`, as far as the logger manipulates them: `Development()`,
`AddCaller()`, `AddCallerSkip(n)`, and opaque passthrough options. -/
inductive ZapOption where
  | development
  | addCaller
  | addCallerSkip (n : Nat)
  | custom (id : Nat)
deriving DecidableEq, Repr

/-- Total caller-skip depth contributed by a list of zap options. -/
def optionsCallerSkip : List ZapOption → Nat
  | [] => 0
  | .addCallerSkip n :: rest => n + optionsCallerSkip rest
  | _ :: rest => optionsCallerSkip rest

/-- A `zapcore.Encoder` as built by `New`: a console encoder (dev mode,
with colored-output and strip-time flags) or a JSON encoder (production,
with message/timestamp key names and strip-time flag); `custom` stands for
an externally supplied encoder (`WrapZapLoggers`). -/
inductive Encoder where
  | console (colored : Bool) (stripTime : Bool)
  | json (msgKey : String) (timeKey : String) (stripTime : Bool)
  | custom (id : Nat)
deriving DecidableEq, Repr

/-- `ctxd.FieldNames`: overrides for the message and timestamp keys. -/
structure FieldNames where
  message : String := ""
  timestamp : String := ""
deriving DecidableEq, Repr

/-- `zapctxd.Config`. -/
structure Config where
  level : Level := .info
  devMode : Bool := false
  fieldNames : FieldNames := {}
  output : Option Sink := none
  zapOptions : List ZapOption := []
  coloredOutput : Bool := false
  stripTime : Bool := false

/-- A loggable value (`interface{}` in a key/value argument list).  Errors
are either plain (`error` whose message is `msg`) or structured
(`ctxd.StructuredError`, exposing a message and a flat list of
supplementary key/value tuples, themselves loggable values). -/
inductive Val where
  | str (s : String)
  | int (n : Int)
  | plainErr (msg : String)
  | structErr (msg : String) (tuples : List Val)

mutual

/-- Equality of loggable values, modelling Go interface comparison `==` as
it is used on key positions (value comparison; keys are ordinarily
strings). -/
def Val.beq : Val → Val → Bool
  | .str a, .str b => a == b
  | .int a, .int b => a == b
  | .plainErr a, .plainErr b => a == b
  | .structErr a s, .structErr b t => a == b && Val.listBeq s t
  | _, _ => false

/-- Pointwise `Val.beq` on lists. -/
def Val.listBeq : List Val → List Val → Bool
  | [], [] => true
  | a :: s, b :: t => Val.beq a b && Val.listBeq s t
  | _, _ => false

end

instance : BEq Val := ⟨Val.beq⟩

/-- `v.(error)` succeeds: the value is an error. -/
def Val.isErr : Val → Bool
  | .plainErr _ => true
  | .structErr _ _ => true
  | _ => false

/-- `errors.As(err, &se)` succeeds for a `ctxd.StructuredError`. -/
def Val.isStructErr : Val → Bool
  | .structErr _ _ => true
  | _ => false

/-- A `context.Context` as the logger consumes it through `ctxd`: the
accumulated field list (`ctxd.Fields`), the force-debug marker
(`ctxd.IsDebug`) and the optional per-context output sink
(`ctxd.LogWriter`). -/
structure Ctx where
  fields : List Val := []
  debug : Bool := false
  writer : Option Sink := none

/-- `ctxd.Fields`. -/
def ctxdFields (c : Ctx) : List Val := c.fields

/-- `ctxd.IsDebug`. -/
def ctxdIsDebug (c : Ctx) : Bool := c.debug

/-- `ctxd.WithDebug`. -/
def ctxdWithDebug (c : Ctx) : Ctx := { c with debug := true }

/-- `ctxd.LogWriter`. -/
def ctxdLogWriter (c : Ctx) : Option Sink := c.writer

/-- The store of `zap.AtomicLevel` cells; an `AtomicLevel` handle is an
index into this store. -/
abbrev LevelStore := List Level

/-- A `zapcore.LevelEnabler` value as held in `Logger.levelEnabler`:
either a `zap.AtomicLevel` handle (what `New` installs) or a
`zapcore.Core` used as an enabler (what `WrapZapLoggers` installs). -/
inductive EnablerRef where
  | atomicRef (idx : Nat)
  | coreOf (enabled : Level → Bool)

/-- `LevelEnabler.Enabled` for an `EnablerRef`, reading atomic cells from
the store. -/
def enablerEnabled (st : LevelStore) : EnablerRef → Level → Bool
  | .atomicRef i, lvl =>
    match List.get? st i with
    | some thr => thr.enables lvl
    | none => false
  | .coreOf f, lvl => f lvl

/-- The severity gate of a pipeline core: `loggerLevelEnabler` (a closure
reading the owning logger's current `levelEnabler` at check time, used for
the normal pipeline), a fixed minimum level (`zap.DebugLevel` on the debug
pipeline and on ephemeral debug-forced pipelines), or a direct enabler
value (ephemeral non-forced pipelines and wrapped cores). -/
inductive Gate where
  | viaLogger
  | atLeast (min : Level)
  | enabler (e : EnablerRef)

/-- A built zap pipeline (sugared logger over a single core): encoder,
sink, severity gate, and the zap options it was built with. -/
structure Pipeline where
  encoder : Encoder
  sink : Option Sink
  gate : Gate
  options : List ZapOption

/-- `zapctxd.Logger`. -/
structure Logger where
  levelEnabler : EnablerRef
  callerSkip : Bool
  encoder : Encoder
  sugared : Pipeline
  debug : Pipeline
  options : List ZapOption
  out : Option Sink

/-- `Gate` resolution (`LevelEnabler.Enabled` of a pipeline core);
`Gate.viaLogger` is the `loggerLevelEnabler` closure and reads the owning
logger's current enabler. -/
def gateEnabled (l : Logger) (st : LevelStore) : Gate → Level → Bool
  | .viaLogger, lvl => enablerEnabled st l.levelEnabler lvl
  | .atLeast min, lvl => min.enables lvl
  | .enabler e, lvl => enablerEnabled st e lvl

/-! ## Structured-error expansion (`expandError` and the scan loop)

The Go scan loop walks the merged key/value slice at every odd (value)
position; an error value is replaced in place by its message, and a
structured error additionally appends its supplementary tuples to the end
of the slice, each pair only when its key is absent from the whole
sequence as grown so far.  The loop condition re-reads the length, so
appended pairs are themselves scanned.

Because the slice grows while being scanned, the Lean rendering carries
the already-scanned prefix (`processed`, always of even length) and the
not-yet-scanned suffix (`pending`); the full slice at any moment is
`processed ++ pending`.  Termination is by a weight that charges each
structured error for its nested tuples. -/

mutual

/-- Termination weight of a loggable value: a structured error weighs more
than everything its tuples can ever contribute to the scan. -/
def valWeight : Val → Nat
  | .str _ => 1
  | .int _ => 1
  | .plainErr _ => 1
  | .structErr _ t => 1 + listWeight t

/-- Sum of `valWeight` over a list. -/
def listWeight : List Val → Nat
  | [] => 0
  | v :: rest => valWeight v + listWeight rest

end

theorem valWeight_pos (v : Val) : 1 ≤ valWeight v := by
  cases v <;> simp [valWeight]

theorem listWeight_append (p q : List Val) :
    listWeight (p ++ q) = listWeight p + listWeight q := by
  induction p with
  | nil => simp [listWeight]
  | cons v rest ih => simp [listWeight, ih]; omega

/-- The duplicate-key check of `expandError`: scan the key positions of
`kv` (`for j := 0; j < len(kv)-1; j += 2`) for a key equal to `key`. -/
def keyExists : List Val → Val → Bool
  | k :: _ :: rest, key => k == key || keyExists rest key
  | _, _ => false

/-- The append loop of `expandError`: walk the tuples pairwise
(`for k := 0; k < len(tuples)-1; k += 2`) and collect each pair whose key
is not yet present, checking against the sequence as it grows.  The
result is the list of pairs `expandError` appends to `kv`. -/
def tuplesToAppend (kv : List Val) : List Val → List Val
  | tk :: tv :: rest =>
    if keyExists kv tk then tuplesToAppend kv rest
    else tk :: tv :: tuplesToAppend (kv ++ [tk, tv]) rest
  | _ => []

theorem tuplesToAppend_weight_le (kv t : List Val) :
    listWeight (tuplesToAppend kv t) ≤ listWeight t := by
  induction kv, t using tuplesToAppend.induct with
  | case1 kv tk tv rest hex ih =>
    have h1 := valWeight_pos tk
    have h2 := valWeight_pos tv
    simp only [tuplesToAppend, hex, if_true]
    simp only [listWeight]
    omega
  | case2 kv tk tv rest hex ih =>
    simp [tuplesToAppend, hex, listWeight]
    omega
  | case3 t kv h =>
    match t, h with
    | [], _ => simp [tuplesToAppend, listWeight]
    | [x], _ =>
      have := valWeight_pos x
      simp [tuplesToAppend, listWeight]
    | a :: b :: c, h => exact absurd rfl (h a b c)

/-- Every element appended by `tuplesToAppend` is an element of the tuple
list. -/
theorem tuplesToAppend_subset (kv t : List Val) :
    ∀ x ∈ tuplesToAppend kv t, x ∈ t := by
  induction kv, t using tuplesToAppend.induct with
  | case1 kv tk tv rest hex ih =>
    intro x hx
    simp only [tuplesToAppend, hex, if_true] at hx
    exact List.mem_cons_of_mem _ (List.mem_cons_of_mem _ (ih x hx))
  | case2 kv tk tv rest hex ih =>
    intro x hx
    simp only [tuplesToAppend] at hx
    rw [if_neg hex] at hx
    rcases List.mem_cons.mp hx with rfl | hx2
    · exact List.mem_cons_self _ _
    · rcases List.mem_cons.mp hx2 with rfl | hmem
      · exact List.mem_cons_of_mem _ (List.mem_cons_self _ _)
      · exact List.mem_cons_of_mem _ (List.mem_cons_of_mem _ (ih x hmem))
  | case3 t kv h =>
    intro x hx
    match t, h with
    | [], _ => simp [tuplesToAppend] at hx
    | [y], _ => simp [tuplesToAppend] at hx
    | a :: b :: c, h => exact absurd rfl (h a b c)

/-- The appended pairs always come in twos. -/
theorem tuplesToAppend_length_even (kv t : List Val) :
    (tuplesToAppend kv t).length % 2 = 0 := by
  induction kv, t using tuplesToAppend.induct with
  | case1 kv tk tv rest hex ih => simpa [tuplesToAppend, hex] using ih
  | case2 kv tk tv rest hex ih =>
    simp only [tuplesToAppend]
    rw [if_neg hex]
    simp only [List.length_cons]
    omega
  | case3 t kv h =>
    match t, h with
    | [], _ => simp [tuplesToAppend]
    | [x], _ => simp [tuplesToAppend]
    | a :: b :: c, h => exact absurd rfl (h a b c)

/-- The scan loop of `Logger.Debug`/`Info`/`Important`/`Warn`/`Error`
together with `expandError`, with explicit tracking of the caller's
argument slice.

`processed` is the already-scanned prefix, `pending` the rest of the
current slice.  `aliased` records whether the slice still shares its
backing array with the caller's argument slice (true exactly when the
context contributed no fields and no growing `append` has happened yet;
a variadic slice is full, so any append reallocates).  `caller` is the
current contents of the caller's slice; in-place writes (`kv[i] =
err.Error()` / `kv[i] = se.Error()`) update it while `aliased` holds.

Returns the fully scanned slice and the final contents of the caller's
slice. -/
def scanAlias (processed pending : List Val) (aliased : Bool) (caller : List Val) :
    List Val × List Val :=
  match pending with
  | k :: v :: rest =>
    match v with
    | .plainErr m =>
      let caller1 := if aliased then processed ++ k :: Val.str m :: rest else caller
      scanAlias (processed ++ [k, Val.str m]) rest aliased caller1
    | .structErr m t =>
      let kvAll := processed ++ k :: Val.str m :: rest
      let caller1 := if aliased then kvAll else caller
      let app := tuplesToAppend kvAll t
      scanAlias (processed ++ [k, Val.str m]) (rest ++ app) (aliased && app.isEmpty) caller1
    | v => scanAlias (processed ++ [k, v]) rest aliased caller
  | leftover => (processed ++ leftover, caller)
termination_by listWeight pending
decreasing_by
  · simp only [listWeight, valWeight]
    have hk := valWeight_pos tk
    omega
  · simp only [listWeight, valWeight, listWeight_append]
    rename_i m t
    have h := tuplesToAppend_weight_le (processed ++ tk :: Val.str m :: rest) t
    have hk := valWeight_pos tk
    omega
  · simp only [listWeight, valWeight]
    rename_i x
    have hk := valWeight_pos tk
    have hx := valWeight_pos x
    omega

/-! ## Construction (`New`, `WrapZapLoggers`, `make`) -/

/-- `Logger.make`: build the normal pipeline (gated by the
`loggerLevelEnabler` closure over the logger's mutable enabler) and the
debug pipeline (gated at `zap.DebugLevel`), both over the logger's
encoder, sink and options. -/
def makeLogger (enabler : EnablerRef) (callerSkip : Bool) (enc : Encoder)
    (out : Option Sink) (opts : List ZapOption) : Logger :=
  { levelEnabler := enabler
    callerSkip := callerSkip
    encoder := enc
    out := out
    options := opts
    sugared := { encoder := enc, sink := out, gate := .viaLogger, options := opts }
    debug := { encoder := enc, sink := out, gate := .atLeast .debug, options := opts } }

/-- `zapctxd.New`: the store models allocation of the `zap.AtomicLevel`
cell; the returned pair is the logger and the grown store. -/
def New (cfg : Config) (options : List ZapOption) (st : LevelStore) :
    Logger × LevelStore :=
  let level := if cfg.level.toInt != 0 then cfg.level else Level.info
  let out : Sink :=
    match cfg.output with
    | some o => o
    | none => Sink.stdout
  let enabler := EnablerRef.atomicRef (List.length st)
  let st1 : LevelStore := st ++ [level]
  let baseOptions := cfg.zapOptions ++ options
  if cfg.devMode then
    (makeLogger enabler true (.console cfg.coloredOutput cfg.stripTime) (some out)
      (baseOptions ++ [.development, .addCaller, .addCallerSkip 1]), st1)
  else
    let msgKey := if cfg.fieldNames.message != "" then cfg.fieldNames.message else "msg"
    let timeKey := if cfg.fieldNames.timestamp != "" then cfg.fieldNames.timestamp else "time"
    (makeLogger enabler false (.json msgKey timeKey cfg.stripTime) (some out)
      baseOptions, st1)

/-- A pre-built `zap.Logger` handed to `WrapZapLoggers`: its core's level
enabler, encoder and sink, and the options it carries. -/
structure ZapLogger where
  enabled : Level → Bool
  encoder : Encoder
  sink : Option Sink
  options : List ZapOption

/-- `zap.Logger.WithOptions`: clone with extra options applied. -/
def ZapLogger.withOptions (z : ZapLogger) (os : List ZapOption) : ZapLogger :=
  { z with options := z.options ++ os }

/-- `zap.Logger.Sugar`: the sugared pipeline over the logger's core; the
gate is the core's own enabler. -/
def ZapLogger.sugar (z : ZapLogger) : Pipeline :=
  { encoder := z.encoder
    sink := z.sink
    gate := .enabler (.coreOf z.enabled)
    options := z.options }

/-- `zapctxd.WrapZapLoggers`: wrap pre-built zap loggers; the level
enabler field receives `sugared.Core()`, a `zapcore.Core`. -/
def WrapZapLoggers (sugared debug : ZapLogger) (encoder : Encoder)
    (options : List ZapOption) : Logger :=
  let s := sugared.withOptions options
  let d := debug.withOptions options
  { levelEnabler := .coreOf s.enabled
    sugared := s.sugar
    debug := d.sugar
    encoder := encoder
    options := options
    callerSkip := false
    out := none }

/-- `Logger.SetLevelEnabler`.  The Go method panics when the current
enabler is a `zapcore.Core` (the `WrapZapLoggers` construction); the panic
is modelled as `Except.error` carrying the panic message. -/
def Logger.SetLevelEnabler (l : Logger) (enabler : EnablerRef) : Except String Logger :=
  match l.levelEnabler with
  | .coreOf _ => .error "cannot set level enabler when logger is created with zap loggers"
  | _ => .ok { l with levelEnabler := enabler }

/-- `Logger.SkipCaller`: return the receiver when not in dev mode;
otherwise copy the receiver (`nl := *l`) and rebuild the two pipeline
handles with one more `AddCallerSkip(1)` applied
(`Desugar().WithOptions(zap.AddCallerSkip(1)).Sugar()`). -/
def Logger.SkipCaller (l : Logger) : Logger :=
  if !l.callerSkip then l
  else
    { l with
      debug := { l.debug with options := l.debug.options ++ [.addCallerSkip 1] }
      sugared := { l.sugared with options := l.sugared.options ++ [.addCallerSkip 1] } }

/-- `SkipCaller` at the level of pointers: logger structs live in a heap
(list) and a logger handle is an index.  The Go method returns the same
pointer when not in dev mode, and allocates a fresh struct (a copy of the
receiver with deeper caller skip) otherwise, never writing through the
receiver pointer. -/
def skipCallerAt (h : List Logger) (i : Nat) : List Logger × Nat :=
  match List.get? h i with
  | none => (h, i)
  | some l => if !l.callerSkip then (h, i) else (h ++ [l.SkipCaller], List.length h)

/-! ## Record assembly and routing (`get`, the five severity methods) -/

/-- `Logger.get`: resolve the pipeline for one call.  The normal pipeline
is dropped when the current enabler does not enable the severity; a
force-debug context routes to the debug pipeline; when the context
carries a writer, an ephemeral pipeline is built from the encoder and
that writer alone (`zap.New(zapcore.NewCore(l.encoder, ws, level))`, no
options), gated at `zap.DebugLevel` when forced and at the logger's
enabler otherwise. -/
def Logger.get (l : Logger) (st : LevelStore) (ctx : Ctx) (level : Level) :
    Option Pipeline :=
  let z : Option Pipeline :=
    if enablerEnabled st l.levelEnabler level then some l.sugared else none
  let isDebug := ctxdIsDebug ctx
  let z := if isDebug then some l.debug else z
  match z with
  | none => none
  | some z1 =>
    match ctxdLogWriter ctx with
    | some w =>
      some { encoder := l.encoder
             sink := some w
             gate := if isDebug then .atLeast .debug else .enabler l.levelEnabler
             options := [] }
    | none => some z1

/-- One record handed to the backend by `Debugw`/`Infow`/`Warnw`/`Errorw`. -/
structure Record where
  level : Level
  msg : String
  kv : List Val
  sink : Option Sink

/-- The write step of the sugared backend (`z.Debugw` and friends): the
pipeline's own core checks its gate at the record's severity before
encoding; one record is produced when it passes. -/
def Pipeline.emit (p : Pipeline) (l : Logger) (st : LevelStore) (lvl : Level)
    (msg : String) (kv : List Val) : Option Record :=
  if gateEnabled l st p.gate lvl then some ⟨lvl, msg, kv, p.sink⟩ else none

/-- The body shared verbatim by `Logger.Debug`, `Info`, `Important`,
`Warn` and `Error` after pipeline resolution: read the context fields,
merge them after the call arguments (allocating a fresh slice only when
the context contributed fields), run the structured-error expansion scan
and hand the result to the backend.  Returns the emitted record (if any)
and the final contents of the caller's argument slice. -/
def Logger.logw (l : Logger) (st : LevelStore) (z : Option Pipeline) (ctx : Ctx)
    (lvl : Level) (msg : String) (keysAndValues : List Val) :
    Option Record × List Val :=
  match z with
  | none => (none, keysAndValues)
  | some p =>
    let fv := ctxdFields ctx
    let kv0 := if fv.length > 0 then keysAndValues ++ fv else keysAndValues
    let scanned := scanAlias [] kv0 (fv.length == 0) keysAndValues
    (p.emit l st lvl msg scanned.1, scanned.2)

/-- `Logger.Debug`. -/
def Logger.Debug (l : Logger) (st : LevelStore) (ctx : Ctx) (msg : String)
    (keysAndValues : List Val) : Option Record × List Val :=
  l.logw st (l.get st ctx .debug) ctx .debug msg keysAndValues

/-- `Logger.Info`. -/
def Logger.Info (l : Logger) (st : LevelStore) (ctx : Ctx) (msg : String)
    (keysAndValues : List Val) : Option Record × List Val :=
  l.logw st (l.get st ctx .info) ctx .info msg keysAndValues

/-- `Logger.Important`: resolve the pipeline against `WithDebug(ctx)` at
Info severity, then emit exactly as `Info` does. -/
def Logger.Important (l : Logger) (st : LevelStore) (ctx : Ctx) (msg : String)
    (keysAndValues : List Val) : Option Record × List Val :=
  l.logw st (l.get st (ctxdWithDebug ctx) .info) ctx .info msg keysAndValues

/-- `Logger.Warn`. -/
def Logger.Warn (l : Logger) (st : LevelStore) (ctx : Ctx) (msg : String)
    (keysAndValues : List Val) : Option Record × List Val :=
  l.logw st (l.get st ctx .warn) ctx .warn msg keysAndValues

/-- `Logger.Error`. -/
def Logger.Error (l : Logger) (st : LevelStore) (ctx : Ctx) (msg : String)
    (keysAndValues : List Val) : Option Record × List Val :=
  l.logw st (l.get st ctx .error) ctx .error msg keysAndValues

/-! ## Predicates on key/value sequences and scan lemmas -/

/-- No value position (odd offset) of the pair sequence holds an error. -/
def valuesErrorFree : List Val → Bool
  | _ :: v :: rest => !v.isErr && valuesErrorFree rest
  | _ => true

/-- No value position holds a structured error (plain errors allowed). -/
def noStructVals : List Val → Bool
  | _ :: v :: rest => !v.isStructErr && noStructVals rest
  | _ => true

/-- Some value position holds an error. -/
def hasErrVal : List Val → Bool
  | _ :: v :: rest => v.isErr || hasErrVal rest
  | _ => false

/-- In-place replacement of one value: an error becomes its rendered
message string, anything else is untouched. -/
def replaceErrVal : Val → Val
  | .plainErr m => .str m
  | .structErr m _ => .str m
  | v => v

/-- Pairwise in-place replacement of error values by their messages. -/
def replaceVals : List Val → List Val
  | k :: v :: rest => k :: replaceErrVal v :: replaceVals rest
  | other => other

theorem valuesErrorFree_noStruct (q : List Val) (h : valuesErrorFree q = true) :
    noStructVals q = true := by
  induction q using valuesErrorFree.induct with
  | case1 k v rest ih =>
    simp [valuesErrorFree] at h
    have hv : v.isStructErr = false := by
      cases v <;> simp [Val.isErr, Val.isStructErr] at h ⊢
    simp [noStructVals, hv, ih h.2]
  | case2 q h1 =>
    match q, h1 with
    | [], _ => simp [noStructVals]
    | [x], _ => simp [noStructVals]
    | a :: b :: c, h1 => exact absurd rfl (h1 a b c)

theorem replaceVals_of_errorFree (q : List Val) (h : valuesErrorFree q = true) :
    replaceVals q = q := by
  induction q using valuesErrorFree.induct with
  | case1 k v rest ih =>
    simp [valuesErrorFree] at h
    have hv : replaceErrVal v = v := by
      cases v <;> simp [Val.isErr] at h ⊢ <;> simp [replaceErrVal]
    simp [replaceVals, hv, ih h.2]
  | case2 q h1 =>
    match q, h1 with
    | [], _ => simp [replaceVals]
    | [x], _ => simp [replaceVals]
    | a :: b :: c, h1 => exact absurd rfl (h1 a b c)

theorem replaceVals_ne_of_hasErrVal :
    ∀ (q : List Val), hasErrVal q = true → replaceVals q ≠ q
  | [], h => by simp [hasErrVal] at h
  | [x], h => by simp [hasErrVal] at h
  | k :: v :: rest, h => by
    intro hcons
    rw [replaceVals] at hcons
    injection hcons with h1 h2
    injection h2 with h3 h4
    simp [hasErrVal] at h
    rcases h with herr | hrest
    · cases v <;> simp [Val.isErr] at herr <;> simp [replaceErrVal] at h3
    · exact replaceVals_ne_of_hasErrVal rest hrest h4

theorem valuesErrorFree_append (q r : List Val) (hlen : q.length % 2 = 0)
    (hq : valuesErrorFree q = true) (hr : valuesErrorFree r = true) :
    valuesErrorFree (q ++ r) = true := by
  induction q using valuesErrorFree.induct with
  | case1 k v rest ih =>
    simp [valuesErrorFree] at hq ⊢
    simp at hlen
    exact ⟨hq.1, ih (by omega) hq.2⟩
  | case2 q h1 =>
    match q, h1 with
    | [], _ => simpa using hr
    | [x], _ => simp at hlen
    | a :: b :: c, h1 => exact absurd rfl (h1 a b c)

theorem valuesErrorFree_of_all (q : List Val)
    (h : ∀ x ∈ q, x.isErr = false) : valuesErrorFree q = true := by
  induction q using valuesErrorFree.induct with
  | case1 k v rest ih =>
    have hv := h v (by simp)
    simp [valuesErrorFree, hv]
    exact ih fun x hx => h x (by simp [hx])
  | case2 q h1 =>
    match q, h1 with
    | [], _ => simp [valuesErrorFree]
    | [x], _ => simp [valuesErrorFree]
    | a :: b :: c, h1 => exact absurd rfl (h1 a b c)

/-- Walking an error-free even-length prefix only moves it from `pending`
to `processed`; neither the aliasing state nor the caller slice changes. -/
theorem scanAlias_walk :
    ∀ (pre P q : List Val) (a : Bool) (c : List Val),
      valuesErrorFree pre = true → pre.length % 2 = 0 →
      scanAlias P (pre ++ q) a c = scanAlias (P ++ pre) q a c
  | [], P, q, a, c, _, _ => by simp
  | [x], P, q, a, c, _, hlen => by simp at hlen
  | k :: v :: rest, P, q, a, c, hfree, hlen => by
    simp [valuesErrorFree] at hfree
    have hstep : scanAlias P (k :: v :: (rest ++ q)) a c
        = scanAlias (P ++ [k, v]) (rest ++ q) a c := by
      cases v <;> simp [Val.isErr] at hfree <;> simp [scanAlias]
    have hrec := scanAlias_walk rest (P ++ [k, v]) q a c hfree.2 (by simp at hlen; omega)
    calc scanAlias P ((k :: v :: rest) ++ q) a c
        = scanAlias (P ++ [k, v]) (rest ++ q) a c := hstep
      _ = scanAlias ((P ++ [k, v]) ++ rest) q a c := hrec
      _ = scanAlias (P ++ (k :: v :: rest)) q a c := by simp

/-- Scanning an error-free tail changes nothing: the result is the full
slice and the caller slice is untouched. -/
theorem scanAlias_errorFree :
    ∀ (q P : List Val) (a : Bool) (c : List Val), valuesErrorFree q = true →
      scanAlias P q a c = (P ++ q, c)
  | [], P, a, c, _ => by simp [scanAlias]
  | [x], P, a, c, _ => by simp [scanAlias]
  | k :: v :: rest, P, a, c, hfree => by
    simp [valuesErrorFree] at hfree
    have hstep : scanAlias P (k :: v :: rest) a c
        = scanAlias (P ++ [k, v]) rest a c := by
      cases v <;> simp [Val.isErr] at hfree <;> simp [scanAlias]
    rw [hstep, scanAlias_errorFree rest (P ++ [k, v]) a c hfree.2]
    simp

/-- A structured-error step shrinks the scan measure: what the step can
append never outweighs the structured error it came from. -/
theorem structErr_step_decreases (kvAll t rest : List Val) (k : Val) (m : String) :
    listWeight (rest ++ tuplesToAppend kvAll t) < listWeight (k :: Val.structErr m t :: rest) := by
  have h := tuplesToAppend_weight_le kvAll t
  have hk := valWeight_pos k
  simp only [listWeight, listWeight_append, valWeight]
  omega

/-- Once the scan works on a reallocated slice (`aliased = false`), the
caller's slice never changes again. -/
theorem scanAlias_frozen :
    ∀ (P q c : List Val), (scanAlias P q false c).2 = c
  | P, [], c => by simp [scanAlias]
  | P, [x], c => by simp [scanAlias]
  | P, k :: v :: rest, c => by
    cases v with
    | str s =>
      rw [show scanAlias P (k :: Val.str s :: rest) false c
          = scanAlias (P ++ [k, Val.str s]) rest false c from by simp [scanAlias]]
      exact scanAlias_frozen _ rest c
    | int n =>
      rw [show scanAlias P (k :: Val.int n :: rest) false c
          = scanAlias (P ++ [k, Val.int n]) rest false c from by simp [scanAlias]]
      exact scanAlias_frozen _ rest c
    | plainErr m =>
      rw [show scanAlias P (k :: Val.plainErr m :: rest) false c
          = scanAlias (P ++ [k, Val.str m]) rest false c from by simp [scanAlias]]
      exact scanAlias_frozen _ rest c
    | structErr m t =>
      rw [show scanAlias P (k :: Val.structErr m t :: rest) false c
          = scanAlias (P ++ [k, Val.str m])
              (rest ++ tuplesToAppend (P ++ k :: Val.str m :: rest) t) false c from by
        simp [scanAlias]]
      exact scanAlias_frozen _ _ c
termination_by P q c => listWeight q
decreasing_by
  · simp only [listWeight, valWeight]
    have hk := valWeight_pos k
    omega
  · simp only [listWeight, valWeight]
    have hk := valWeight_pos k
    omega
  · simp only [listWeight, valWeight]
    have hk := valWeight_pos k
    omega
  · simp only [listWeight, valWeight, listWeight_append]
    have h := tuplesToAppend_weight_le (P ++ k :: Val.str msg :: rest) tuples
    have hk := valWeight_pos k
    omega

/-- While the slice is still aliased with the caller's and only plain
errors occur at value positions, the in-place replacements write through
to the caller's slice: both results equal the replaced sequence. -/
theorem scanAlias_aliased :
    ∀ (q P c : List Val), noStructVals q = true → c = P ++ q →
      scanAlias P q true c = (P ++ replaceVals q, P ++ replaceVals q)
  | [], P, c, _, hc => by simp [scanAlias, replaceVals, hc]
  | [x], P, c, _, hc => by simp [scanAlias, replaceVals, hc]
  | k :: v :: rest, P, c, hns, hc => by
    simp [noStructVals] at hns
    cases v with
    | structErr m t => simp [Val.isStructErr] at hns
    | plainErr m =>
      have := scanAlias_aliased rest (P ++ [k, Val.str m])
        (P ++ k :: Val.str m :: rest) hns.2 (by simp)
      simp [scanAlias, this, replaceVals, replaceErrVal]
    | str s =>
      have := scanAlias_aliased rest (P ++ [k, Val.str s]) c hns.2
        (by simp [hc])
      simp [scanAlias, this, replaceVals, replaceErrVal]
    | int n =>
      have := scanAlias_aliased rest (P ++ [k, Val.int n]) c hns.2
        (by simp [hc])
      simp [scanAlias, this, replaceVals, replaceErrVal]

/-! ## Routing facts -/

/-- `zap.DebugLevel` enables every severity. -/
theorem debug_enables_all (lvl : Level) : Level.enables .debug lvl = true := by
  cases lvl <;> decide

/-- The debug pipeline of any `New`-built logger is gated at
`zap.DebugLevel`. -/
theorem New_debug_gate (cfg : Config) (opts : List ZapOption) (st : LevelStore) :
    ((New cfg opts st).1).debug.gate = Gate.atLeast .debug := by
  cases hc : cfg.devMode <;> simp [New, makeLogger, hc]

/-- The shared method body emits one record as soon as the resolved
pipeline's gate passes; the key/value contents never block emission. -/
theorem logw_isSome (l : Logger) (st : LevelStore) (p : Pipeline) (ctx : Ctx)
    (lvl : Level) (msg : String) (args : List Val)
    (h : gateEnabled l st p.gate lvl = true) :
    (l.logw st (some p) ctx lvl msg args).1.isSome = true := by
  simp [Logger.logw, Pipeline.emit, h]

/-- The shared method body reads the context only through its field list. -/
theorem logw_congr (l : Logger) (st : LevelStore) (z : Option Pipeline)
    (ctx1 ctx2 : Ctx) (lvl : Level) (msg : String) (args : List Val)
    (h : ctxdFields ctx1 = ctxdFields ctx2) :
    l.logw st z ctx1 lvl msg args = l.logw st z ctx2 lvl msg args := by
  cases z <;> simp [Logger.logw, h]

/-- On a force-debug context, `get` of a `New`-built logger always
resolves some pipeline whose gate passes at any severity. -/
theorem New_get_debugCtx (cfg : Config) (opts : List ZapOption)
    (st0 st : LevelStore) (ctx : Ctx) (lvl : Level)
    (hdbg : ctxdIsDebug ctx = true) :
    ∃ p, ((New cfg opts st0).1).get st ctx lvl = some p
      ∧ gateEnabled ((New cfg opts st0).1) st p.gate lvl = true := by
  cases hw : ctxdLogWriter ctx with
  | none =>
    refine ⟨((New cfg opts st0).1).debug, ?_, ?_⟩
    · simp [Logger.get, hdbg, hw]
    · rw [New_debug_gate]
      simp [gateEnabled, debug_enables_all]
  | some w =>
    refine ⟨⟨((New cfg opts st0).1).encoder, some w, .atLeast .debug, []⟩, ?_, ?_⟩
    · simp [Logger.get, hdbg, hw]
    · simp [gateEnabled, debug_enables_all]

/-! ## Claims -/

/-- C1: for every severity in {Debug, Info, Warn, Error}, every context
without the force-debug marker, and every message and key/value list, a
call whose severity the current level enabler does not enable emits no
record and leaves the caller's argument slice untouched (the method
returns before reading context fields, merging, or expanding errors). -/
theorem c1_below_threshold_noop (l : Logger) (st : LevelStore) (ctx : Ctx)
    (msg : String) (args : List Val) (hdbg : ctxdIsDebug ctx = false) :
    (enablerEnabled st l.levelEnabler .debug = false →
      l.Debug st ctx msg args = (none, args))
    ∧ (enablerEnabled st l.levelEnabler .info = false →
      l.Info st ctx msg args = (none, args))
    ∧ (enablerEnabled st l.levelEnabler .warn = false →
      l.Warn st ctx msg args = (none, args))
    ∧ (enablerEnabled st l.levelEnabler .error = false →
      l.Error st ctx msg args = (none, args)) := by
  refine ⟨?_, ?_, ?_, ?_⟩ <;> intro hen <;>
    simp [Logger.Debug, Logger.Info, Logger.Warn, Logger.Error, Logger.get,
      Logger.logw, hdbg, hen]

/-- C1 witness: a logger whose threshold is Fatal and a plain context: all
four severity methods are no-ops. -/
theorem c1_below_threshold_noop_witness :
    ((New { level := .fatal } [] []).1.Debug [.fatal] {} "m" [.str "k", .int 1]
        = (none, [.str "k", .int 1]))
    ∧ ((New { level := .fatal } [] []).1.Info [.fatal] {} "m" [.str "k", .int 1]
        = (none, [.str "k", .int 1]))
    ∧ ((New { level := .fatal } [] []).1.Warn [.fatal] {} "m" [.str "k", .int 1]
        = (none, [.str "k", .int 1]))
    ∧ ((New { level := .fatal } [] []).1.Error [.fatal] {} "m" [.str "k", .int 1]
        = (none, [.str "k", .int 1])) := by
  have h := c1_below_threshold_noop (New { level := .fatal } [] []).1 [.fatal] {}
    "m" [.str "k", .int 1] rfl
  exact ⟨h.1 rfl, h.2.1 rfl, h.2.2.1 rfl, h.2.2.2 rfl⟩

/-- C2: on a context carrying the force-debug marker, each of the five
severity methods of a `New`-built logger produces exactly one record,
regardless of the configuration and of the current threshold store. -/
theorem c2_forced_debug_emits (cfg : Config) (opts : List ZapOption)
    (st0 st : LevelStore) (ctx : Ctx) (msg : String) (args : List Val)
    (hdbg : ctxdIsDebug ctx = true) :
    (((New cfg opts st0).1).Debug st ctx msg args).1.isSome = true
    ∧ (((New cfg opts st0).1).Info st ctx msg args).1.isSome = true
    ∧ (((New cfg opts st0).1).Warn st ctx msg args).1.isSome = true
    ∧ (((New cfg opts st0).1).Error st ctx msg args).1.isSome = true
    ∧ (((New cfg opts st0).1).Important st ctx msg args).1.isSome = true := by
  have hdbg2 : ctxdIsDebug (ctxdWithDebug ctx) = true := rfl
  obtain ⟨pd,    hpd, hgd⟩ := New_get_debugCtx cfg opts st0 st ctx .debug hdbg
  obtain ⟨pi, hpi, hgi⟩ := New_get_debugCtx cfg opts st0 st ctx .info hdbg
  obtain ⟨pw, hpw, hgw⟩ := New_get_debugCtx cfg opts st0 st ctx .warn hdbg
  obtain ⟨pe, hpe, hge⟩ := New_get_debugCtx cfg opts st0 st ctx .error hdbg
  obtain ⟨pm, hpm, hgm⟩ := New_get_debugCtx cfg opts st0 st (ctxdWithDebug ctx) .info hdbg2
  refine ⟨?_, ?_, ?_, ?_, ?_⟩
  · show (((New cfg opts st0).1).logw st (((New cfg opts st0).1).get st ctx .debug)
      ctx .debug msg args).1.isSome = true
    rw [hpd]; exact logw_isSome _ _ _ _ _ _ _ hgd
  · show (((New cfg opts st0).1).logw st (((New cfg opts st0).1).get st ctx .info)
      ctx .info msg args).1.isSome = true
    rw [hpi]; exact logw_isSome _ _ _ _ _ _ _ hgi
  · show (((New cfg opts st0).1).logw st (((New cfg opts st0).1).get st ctx .warn)
      ctx .warn msg args).1.isSome = true
    rw [hpw]; exact logw_isSome _ _ _ _ _ _ _ hgw
  · show (((New cfg opts st0).1).logw st (((New cfg opts st0).1).get st ctx .error)
      ctx .error msg args).1.isSome = true
    rw [hpe]; exact logw_isSome _ _ _ _ _ _ _ hge
  · show (((New cfg opts st0).1).logw st
      (((New cfg opts st0).1).get st (ctxdWithDebug ctx) .info)
      ctx .info msg args).1.isSome = true
    rw [hpm]; exact logw_isSome _ _ _ _ _ _ _ hgm

/-- C2 witness: with a forced-debug context and the default configuration
(threshold Info), even `Debug` — below the threshold — emits, as do all
other methods. -/
theorem c2_forced_debug_emits_witness :
    (((New {} [] []).1).Debug [.info] { debug := true } "m" []).1.isSome = true
    ∧ (((New {} [] []).1).Info [.info] { debug := true } "m" []).1.isSome = true
    ∧ (((New {} [] []).1).Warn [.info] { debug := true } "m" []).1.isSome = true
    ∧ (((New {} [] []).1).Error [.info] { debug := true } "m" []).1.isSome = true
    ∧ (((New {} [] []).1).Important [.info] { debug := true } "m" []).1.isSome = true :=
  c2_forced_debug_emits {} [] [] [.info] { debug := true } "m" [] rfl

/-- C3: `Important` behaves exactly as `Info` on the context with the
force-debug marker added, and on any `New`-built logger it always
produces a record carrying Info severity and the call's message,
whatever the configured threshold. -/
theorem c3_important_info_via_debug :
    (∀ (l : Logger) (st : LevelStore) (ctx : Ctx) (msg : String) (args : List Val),
      l.Important st ctx msg args = l.Info st (ctxdWithDebug ctx) msg args)
    ∧ (∀ (cfg : Config) (opts : List ZapOption) (st0 st : LevelStore) (ctx : Ctx)
        (msg : String) (args : List Val),
        ∃ r, (((New cfg opts st0).1).Important st ctx msg args).1 = some r
          ∧ r.level = .info ∧ r.msg = msg) := by
  constructor
  · intro l st ctx msg args
    exact logw_congr l st _ ctx (ctxdWithDebug ctx) .info msg args rfl
  · intro cfg opts st0 st ctx msg args
    obtain ⟨p, hp, hg⟩ :=
      New_get_debugCtx cfg opts st0 st (ctxdWithDebug ctx) .info rfl
    show ∃ r, (((New cfg opts st0).1).logw st
      (((New cfg opts st0).1).get st (ctxdWithDebug ctx) .info)
      ctx .info msg args).1 = some r ∧ r.level = .info ∧ r.msg = msg
    rw [hp]
    simp [Logger.logw, Pipeline.emit, hg]

/-- C7: replacing the level enabler panics on a logger built by
`WrapZapLoggers` (whose enabler is the wrapped core) and succeeds on any
logger built by `New`, replacing the enabler in the returned logger. -/
theorem c7_set_level_enabler :
    (∀ (szl dzl : ZapLogger) (enc : Encoder) (os : List ZapOption) (e : EnablerRef),
      (WrapZapLoggers szl dzl enc os).SetLevelEnabler e
        = Except.error "cannot set level enabler when logger is created with zap loggers")
    ∧ (∀ (cfg : Config) (opts : List ZapOption) (st0 : LevelStore) (e : EnablerRef),
      ((New cfg opts st0).1).SetLevelEnabler e
        = Except.ok { (New cfg opts st0).1 with levelEnabler := e }) := by
  constructor
  · intro szl dzl enc os e
    simp [WrapZapLoggers, Logger.SetLevelEnabler]
  · intro cfg opts st0 e
    cases hc : cfg.devMode <;>
      simp [New, makeLogger, Logger.SetLevelEnabler, hc]

/-- When every value position of the merged sequence is error-free, the
shared method body hands the backend exactly the call arguments followed
by the context fields. -/
theorem logw_kv_merge (l : Logger) (st : LevelStore) (z : Option Pipeline)
    (ctx : Ctx) (lvl : Level) (msg : String) (args : List Val)
    (hfree : valuesErrorFree (args ++ ctxdFields ctx) = true) (r : Record)
    (h : (l.logw st z ctx lvl msg args).1 = some r) :
    r.kv = args ++ ctxdFields ctx := by
  cases z with
  | none => simp [Logger.logw] at h
  | some p =>
    cases hfv : ctxdFields ctx with
    | nil =>
      rw [hfv] at hfree
      simp only [List.append_nil] at hfree
      simp only [Logger.logw, hfv, List.length_nil, gt_iff_lt, lt_self_iff_false,
        if_false, Pipeline.emit] at h
      split at h
      · cases h
        simp [hfv, scanAlias_errorFree args [] true args hfree]
      · cases h
    | cons f fs =>
      rw [hfv] at hfree
      simp only [Logger.logw, hfv, List.length_cons, gt_iff_lt, Nat.succ_pos,
        if_true, Pipeline.emit] at h
      split at h
      · cases h
        simp [hfv, scanAlias_errorFree (args ++ f :: fs) [] false args hfree]
      · cases h

/-- C4: for every emitting call whose merged sequence carries no error
values, the field sequence handed to the backend is the per-call
arguments in order followed by the context fields in attachment order;
key collisions between the two sources are preserved, not deduplicated. -/
theorem c4_merge_order (l : Logger) (st : LevelStore) (ctx : Ctx) (msg : String)
    (args : List Val)
    (hfree : valuesErrorFree (args ++ ctxdFields ctx) = true) :
    (∀ r, (l.Debug st ctx msg args).1 = some r → r.kv = args ++ ctxdFields ctx)
    ∧ (∀ r, (l.Info st ctx msg args).1 = some r → r.kv = args ++ ctxdFields ctx)
    ∧ (∀ r, (l.Warn st ctx msg args).1 = some r → r.kv = args ++ ctxdFields ctx)
    ∧ (∀ r, (l.Error st ctx msg args).1 = some r → r.kv = args ++ ctxdFields ctx)
    ∧ (∀ r, (l.Important st ctx msg args).1 = some r → r.kv = args ++ ctxdFields ctx) :=
  ⟨fun r h => logw_kv_merge l st _ ctx .debug msg args hfree r h,
   fun r h => logw_kv_merge l st _ ctx .info msg args hfree r h,
   fun r h => logw_kv_merge l st _ ctx .warn msg args hfree r h,
   fun r h => logw_kv_merge l st _ ctx .error msg args hfree r h,
   fun r h => logw_kv_merge l st _ ctx .info msg args hfree r h⟩

/-- C4 witness: call args `a,1,b,2` and context fields `b,9` emit as
`a,1,b,2,b,9` — arguments first, context fields appended, the duplicate
key `b` kept twice. -/
theorem c4_merge_order_witness :
    (((New {} [] []).1).Info [.info]
        { fields := [Val.str "b", Val.int 9] } "m"
        [Val.str "a", Val.int 1, Val.str "b", Val.int 2]).1
      = some ⟨.info, "m",
          [Val.str "a", Val.int 1, Val.str "b", Val.int 2, Val.str "b", Val.int 9],
          some .stdout⟩
    ∧ (⟨.info, "m",
          [Val.str "a", Val.int 1, Val.str "b", Val.int 2, Val.str "b", Val.int 9],
          some .stdout⟩ : Record).kv
      = [Val.str "a", Val.int 1, Val.str "b", Val.int 2]
          ++ ctxdFields { fields := [Val.str "b", Val.int 9] } := by
  have hsome : (((New {} [] []).1).Info [.info]
      { fields := [Val.str "b", Val.int 9] } "m"
      [Val.str "a", Val.int 1, Val.str "b", Val.int 2]).1
      = some ⟨.info, "m",
          [Val.str "a", Val.int 1, Val.str "b", Val.int 2, Val.str "b", Val.int 9],
          some .stdout⟩ := by
    show (((New {} [] []).1).logw [.info] _ _ .info "m" _).1 = _
    norm_num [Logger.logw, Logger.get, ctxdFields, ctxdIsDebug, ctxdLogWriter,
      New, makeLogger, enablerEnabled, Level.enables, Level.toInt,
      Pipeline.emit, gateEnabled]
    have hs := scanAlias_errorFree
      [Val.str "a", Val.int 1, Val.str "b", Val.int 2, Val.str "b", Val.int 9] []
      false [Val.str "a", Val.int 1, Val.str "b", Val.int 2] (by decide)
    simp [hs]
  refine ⟨hsome, ?_⟩
  exact c4_merge_order (New {} [] []).1 [.info]
    { fields := [Val.str "b", Val.int 9] } "m"
    [Val.str "a", Val.int 1, Val.str "b", Val.int 2] (by decide) |>.2.1 _ hsome

/-- C6: `New` succeeds on every configuration; a zero-valued `Level`
yields an effective starting threshold of Info (only a non-zero level
overrides it), and an unset `Output` defaults to standard output. -/
theorem c6_new_defaults (cfg : Config) (opts : List ZapOption) (st0 : LevelStore) :
    ((New cfg opts st0).1.levelEnabler = EnablerRef.atomicRef st0.length)
    ∧ (cfg.level.toInt = 0 →
        List.get? (New cfg opts st0).2 st0.length = some Level.info)
    ∧ (cfg.level.toInt ≠ 0 →
        List.get? (New cfg opts st0).2 st0.length = some cfg.level)
    ∧ (cfg.output = none → (New cfg opts st0).1.out = some Sink.stdout) := by
  refine ⟨?_, ?_, ?_, ?_⟩
  · cases hc : cfg.devMode <;> simp [New, makeLogger, hc]
  · intro h
    have hb : (cfg.level.toInt != 0) = false := by simp [h]
    cases hc : cfg.devMode <;>
      simp [New, makeLogger, hc, hb, List.get?_concat_length]
  · intro h
    have hb : (cfg.level.toInt != 0) = true := by simp [h]
    cases hc : cfg.devMode <;>
      simp [New, makeLogger, hc, hb, List.get?_concat_length]
  · intro h
    cases hc : cfg.devMode <;> simp [New, makeLogger, hc, h]

/-- C6 witness: the zero-valued configuration starts at Info on stdout;
an explicit Error level overrides the threshold. -/
theorem c6_new_defaults_witness :
    ((New {} [] []).1.levelEnabler = EnablerRef.atomicRef 0)
    ∧ (List.get? (New {} [] []).2 0 = some Level.info)
    ∧ ((New {} [] []).1.out = some Sink.stdout)
    ∧ (List.get? (New { level := .error } [] []).2 0 = some Level.error) := by
  have h1 := c6_new_defaults {} [] []
  have h2 := c6_new_defaults { level := .error } [] []
  exact ⟨h1.1, h1.2.1 (by decide), h1.2.2.2 rfl, h2.2.2.1 (by decide)⟩

theorem optionsCallerSkip_append (a b : List ZapOption) :
    optionsCallerSkip (a ++ b) = optionsCallerSkip a + optionsCallerSkip b := by
  induction a with
  | nil => simp [optionsCallerSkip]
  | cons o rest ih => cases o <;> simp [optionsCallerSkip, ih] <;> omega

/-- C8: `SkipCaller` returns the receiver unchanged outside dev mode; in
dev mode it returns a new instance whose two pipelines carry one more
frame of caller skip while every other field — including the level
enabler handle, which is therefore shared by reference — is copied from
the receiver; repeated applications compose, and at the heap level the
operation never writes any existing logger cell. -/
theorem c8_skip_caller (l : Logger) (h : List Logger) (i : Nat) :
    (l.callerSkip = false → l.SkipCaller = l)
    ∧ (l.callerSkip = true →
        optionsCallerSkip (l.SkipCaller).sugared.options
            = optionsCallerSkip l.sugared.options + 1
        ∧ optionsCallerSkip (l.SkipCaller).debug.options
            = optionsCallerSkip l.debug.options + 1
        ∧ (l.SkipCaller).levelEnabler = l.levelEnabler
        ∧ (l.SkipCaller).callerSkip = l.callerSkip
        ∧ (l.SkipCaller).encoder = l.encoder
        ∧ (l.SkipCaller).out = l.out
        ∧ (l.SkipCaller).options = l.options
        ∧ (l.SkipCaller).sugared.gate = l.sugared.gate
        ∧ (l.SkipCaller).debug.gate = l.debug.gate
        ∧ (l.SkipCaller).sugared.sink = l.sugared.sink
        ∧ (l.SkipCaller).debug.sink = l.debug.sink
        ∧ optionsCallerSkip ((l.SkipCaller).SkipCaller).sugared.options
            = optionsCallerSkip l.sugared.options + 2)
    ∧ (∀ j, j < h.length → (skipCallerAt h i).1.get? j = h.get? j) := by
  refine ⟨?_, ?_, ?_⟩
  · intro h0
    simp [Logger.SkipCaller, h0]
  · intro h1
    simp [Logger.SkipCaller, h1, optionsCallerSkip_append, optionsCallerSkip]
  · intro j hj
    cases hg : List.get? h i with
    | none =>
      simp only [List.get?_eq_getElem?] at hg
      simp [skipCallerAt, hg]
    | some l0 =>
      simp only [List.get?_eq_getElem?] at hg
      cases hcs : l0.callerSkip with
      | false => simp [skipCallerAt, hg, hcs]
      | true => simp [skipCallerAt, hg, hcs, List.getElem?_append_left hj]

/-- C8 witness: a dev-mode logger gains one frame of skip on both
pipelines, keeps its enabler handle, and the heap cell of the receiver
is untouched; a production logger is returned as-is. -/
theorem c8_skip_caller_witness :
    ((New {} [] []).1.SkipCaller = (New {} [] []).1)
    ∧ (optionsCallerSkip ((New { devMode := true } [] []).1.SkipCaller).sugared.options
        = optionsCallerSkip (New { devMode := true } [] []).1.sugared.options + 1)
    ∧ (((New { devMode := true } [] []).1.SkipCaller).levelEnabler
        = (New { devMode := true } [] []).1.levelEnabler)
    ∧ ((skipCallerAt [(New { devMode := true } [] []).1] 0).1.get? 0
        = [(New { devMode := true } [] []).1].get? 0) := by
  have ha := c8_skip_caller (New {} [] []).1 [] 0
  have hb := c8_skip_caller (New { devMode := true } [] []).1
    [(New { devMode := true } [] []).1] 0
  exact ⟨ha.1 rfl, (hb.2.1 rfl).1, (hb.2.1 rfl).2.2.1, hb.2.2 0 (by decide)⟩

/-- The pipeline `get` resolves when the context carries a writer: either
nothing (disabled severity, no forced debug), or an ephemeral pipeline
built from the logger's encoder and that writer with no options. -/
theorem get_writer_shape (l : Logger) (st : LevelStore) (ctx : Ctx)
    (lvl : Level) (w : Sink) (hw : ctxdLogWriter ctx = some w) :
    l.get st ctx lvl = none
    ∨ ∃ g, l.get st ctx lvl = some ⟨l.encoder, some w, g, []⟩ := by
  cases hd : ctxdIsDebug ctx with
  | true =>
    refine Or.inr ⟨Gate.atLeast .debug, ?_⟩
    simp [Logger.get, hw, hd]
  | false =>
    cases he : enablerEnabled st l.levelEnabler lvl with
    | false => exact Or.inl (by simp [Logger.get, hw, hd, he])
    | true =>
      refine Or.inr ⟨Gate.enabler l.levelEnabler, ?_⟩
      simp [Logger.get, hw, hd, he]

/-- C9: when the context carries an output sink, the pipeline resolved
for the call is the ephemeral one: the logger's encoder writing to that
sink with an empty option list — so dev-mode caller annotation and any
constructor-supplied options do not apply to it. -/
theorem c9_ephemeral_no_options (l : Logger) (st : LevelStore) (ctx : Ctx)
    (lvl : Level) (w : Sink) (p : Pipeline)
    (hw : ctxdLogWriter ctx = some w) (hp : l.get st ctx lvl = some p) :
    p.options = [] ∧ p.encoder = l.encoder ∧ p.sink = some w
    ∧ optionsCallerSkip p.options = 0 := by
  rcases get_writer_shape l st ctx lvl w hw with hnone | ⟨g, hsome⟩
  · rw [hp] at hnone
    cases hnone
  · rw [hp] at hsome
    injection hsome with h1
    rw [h1]
    simp [optionsCallerSkip]

/-- C9 witness: a dev-mode logger (whose own pipelines carry development,
caller-annotation and caller-skip options) still yields an option-free
ephemeral pipeline for a context-supplied sink. -/
theorem c9_ephemeral_no_options_witness :
    (⟨Encoder.console false false, some (Sink.writer 7), Gate.atLeast .debug, []⟩
        : Pipeline).options = []
    ∧ (⟨Encoder.console false false, some (Sink.writer 7), Gate.atLeast .debug, []⟩
        : Pipeline).encoder = (New { devMode := true } [] []).1.encoder
    ∧ (⟨Encoder.console false false, some (Sink.writer 7), Gate.atLeast .debug, []⟩
        : Pipeline).sink = some (Sink.writer 7)
    ∧ optionsCallerSkip (⟨Encoder.console false false, some (Sink.writer 7),
        Gate.atLeast .debug, []⟩ : Pipeline).options = 0 :=
  c9_ephemeral_no_options (New { devMode := true } [] []).1 [.info]
    { debug := true, writer := some (Sink.writer 7) } .info (Sink.writer 7)
    ⟨Encoder.console false false, some (Sink.writer 7), Gate.atLeast .debug, []⟩
    rfl rfl

/-- C10: when the context supplies no fields, the merged sequence aliases
the caller's argument slice, and the in-place replacement of error values
by the expansion loop writes through to it (so a call whose arguments
contain an error mutates the caller's slice); when the context supplies
at least one field, a fresh slice is allocated and the caller's slice is
left exactly as it was. -/
theorem c10_alias_mutation (l : Logger) (st : LevelStore) (ctx : Ctx)
    (msg : String) (args : List Val) :
    (ctxdFields ctx ≠ [] → (l.Debug st ctx msg args).2 = args)
    ∧ (∀ p, ctxdFields ctx = [] → l.get st ctx .debug = some p →
        noStructVals args = true →
        (l.Debug st ctx msg args).2 = replaceVals args
        ∧ (hasErrVal args = true → (l.Debug st ctx msg args).2 ≠ args)) := by
  constructor
  · intro hne
    cases hz : l.get st ctx .debug with
    | none => simp [Logger.Debug, Logger.logw, hz]
    | some p =>
      have hlen : (ctxdFields ctx).length ≠ 0 := by
        simpa [List.length_eq_zero] using hne
      have hflag : ((ctxdFields ctx).length == 0) = false := by simp [hlen]
      have hgt : 0 < (ctxdFields ctx).length := Nat.pos_of_ne_zero hlen
      simp [Logger.Debug, Logger.logw, hz, hflag, hgt, scanAlias_frozen]
  · intro p hfv hz hns
    have h2 : (l.Debug st ctx msg args).2 = replaceVals args := by
      have hs := scanAlias_aliased args [] args hns (by simp)
      simp [Logger.Debug, Logger.logw, hz, hfv, hs]
    refine ⟨h2, fun herr => ?_⟩
    rw [h2]
    exact replaceVals_ne_of_hasErrVal args herr

/-- C10 witness: with no context fields, a call whose second argument is
an error leaves the caller's slice mutated (`boom` replaces the error in
place); with a context field, the caller's slice is unchanged. -/
theorem c10_alias_mutation_witness :
    (((New {} [] []).1.Debug [.info] { debug := true } "m"
        [Val.str "k", Val.plainErr "boom"]).2 = [Val.str "k", Val.str "boom"])
    ∧ (((New {} [] []).1.Debug [.info] { debug := true } "m"
        [Val.str "k", Val.plainErr "boom"]).2 ≠ [Val.str "k", Val.plainErr "boom"])
    ∧ (((New {} [] []).1.Debug [.info]
        { fields := [Val.str "c", Val.int 3], debug := true } "m"
        [Val.str "k", Val.plainErr "boom"]).2
      = [Val.str "k", Val.plainErr "boom"]) := by
  have ha := (c10_alias_mutation (New {} [] []).1 [.info] { debug := true } "m"
    [Val.str "k", Val.plainErr "boom"]).2 (New {} [] []).1.debug rfl rfl (by decide)
  have hb := (c10_alias_mutation (New {} [] []).1 [.info]
    { fields := [Val.str "c", Val.int 3], debug := true } "m"
    [Val.str "k", Val.plainErr "boom"]).1 (by simp [ctxdFields])
  exact ⟨ha.1.trans rfl, ha.2 rfl, hb⟩

/-- The scan of a sequence holding one structured error (all other value
positions error-free, tuples error-free): the error value is replaced in
place by its message and the deduplicated tuple pairs are appended at the
end. -/
theorem scanAlias_structErr (pre post t : List Val) (k : Val) (m : String)
    (a : Bool) (c : List Val)
    (hpreLen : pre.length % 2 = 0) (hpreF : valuesErrorFree pre = true)
    (hpostLen : post.length % 2 = 0) (hpostF : valuesErrorFree post = true)
    (htE : ∀ x ∈ t, x.isErr = false) :
    (scanAlias [] (pre ++ k :: Val.structErr m t :: post) a c).1
      = (pre ++ k :: Val.str m :: post)
          ++ tuplesToAppend (pre ++ k :: Val.str m :: post) t := by
  rw [scanAlias_walk pre [] (k :: Val.structErr m t :: post) a c hpreF hpreLen]
  simp only [List.nil_append]
  have happF : valuesErrorFree (tuplesToAppend (pre ++ k :: Val.str m :: post) t)
      = true :=
    valuesErrorFree_of_all _ fun x hx => htE x (tuplesToAppend_subset _ t x hx)
  have hpa := valuesErrorFree_append post _ hpostLen hpostF happF
  cases a with
  | true =>
    rw [show scanAlias pre (k :: Val.structErr m t :: post) true c
        = scanAlias (pre ++ [k, Val.str m])
            (post ++ tuplesToAppend (pre ++ k :: Val.str m :: post) t)
            (true && (tuplesToAppend (pre ++ k :: Val.str m :: post) t).isEmpty)
            (pre ++ k :: Val.str m :: post) from by simp [scanAlias]]
    rw [scanAlias_errorFree _ _ _ _ hpa]
    simp
  | false =>
    rw [show scanAlias pre (k :: Val.structErr m t :: post) false c
        = scanAlias (pre ++ [k, Val.str m])
            (post ++ tuplesToAppend (pre ++ k :: Val.str m :: post) t)
            (false && (tuplesToAppend (pre ++ k :: Val.str m :: post) t).isEmpty)
            c from by simp [scanAlias]]
    rw [scanAlias_errorFree _ _ _ _ hpa]
    simp

/-- C5: during structured-error expansion, a structured error at a value
position is replaced in place by its rendered message, and its tuples are
appended to the end of the sequence exactly when their key is not already
present in the sequence at check time — the check scanning the sequence
as grown so far, so the first occurrence of a key wins and later
duplicates are dropped. -/
theorem c5_expansion (cfg : Config) (opts : List ZapOption) (st0 st : LevelStore)
    (ctx : Ctx) (msg m : String) (k : Val) (pre post t : List Val)
    (hfv : ctxdFields ctx = []) (hdbg : ctxdIsDebug ctx = true)
    (hw : ctxdLogWriter ctx = none)
    (hpreLen : pre.length % 2 = 0) (hpreF : valuesErrorFree pre = true)
    (hpostLen : post.length % 2 = 0) (hpostF : valuesErrorFree post = true)
    (htE : ∀ x ∈ t, x.isErr = false) :
    ((((New cfg opts st0).1).Debug st ctx msg
        (pre ++ k :: Val.structErr m t :: post)).1
      = some ⟨.debug, msg,
          (pre ++ k :: Val.str m :: post)
            ++ tuplesToAppend (pre ++ k :: Val.str m :: post) t,
          ((New cfg opts st0).1).debug.sink⟩)
    ∧ (∀ kv tk tv rest, keyExists kv tk = true →
        tuplesToAppend kv (tk :: tv :: rest) = tuplesToAppend kv rest)
    ∧ (∀ kv tk tv rest, keyExists kv tk = false →
        tuplesToAppend kv (tk :: tv :: rest)
          = tk :: tv :: tuplesToAppend (kv ++ [tk, tv]) rest) := by
  refine ⟨?_, ?_, ?_⟩
  · have hget : ((New cfg opts st0).1).get st ctx .debug
        = some ((New cfg opts st0).1).debug := by
      simp [Logger.get, hdbg, hw]
    have hscan := scanAlias_structErr pre post t k m true
      (pre ++ k :: Val.structErr m t :: post) hpreLen hpreF hpostLen hpostF htE
    have hgate : gateEnabled ((New cfg opts st0).1) st
        ((New cfg opts st0).1).debug.gate .debug = true := by
      rw [New_debug_gate]
      simp [gateEnabled, debug_enables_all]
    show ((((New cfg opts st0).1)).logw st (((New cfg opts st0).1).get st ctx .debug)
        ctx .debug msg _).1 = _
    rw [hget]
    simp [Logger.logw, hfv, Pipeline.emit, hgate, hscan]
  · intro kv tk tv rest hex
    simp [tuplesToAppend, hex]
  · intro kv tk tv rest hex
    simp only [tuplesToAppend]
    rw [if_neg (by simp [hex])]

/-- C5 witness: the spec's deduplication example — call args
`detail,1,error,<structured error with tuple detail,2>`: the error value
is replaced by its message `boom` and the expansion appends nothing,
because key `detail` is already present (first occurrence wins). -/
theorem c5_expansion_witness :
    ((New {} [] []).1.Debug [.info] { debug := true } "m"
        [Val.str "detail", Val.int 1, Val.str "error",
         Val.structErr "boom" [Val.str "detail", Val.int 2]]).1
      = some ⟨.debug, "m",
          [Val.str "detail", Val.int 1, Val.str "error", Val.str "boom"],
          some .stdout⟩ := by
  have h := (c5_expansion {} [] [] [.info] { debug := true } "m" "boom"
    (Val.str "error") [Val.str "detail", Val.int 1] []
    [Val.str "detail", Val.int 2]
    rfl rfl rfl (by decide) (by decide) (by decide) (by decide)
    (by simp [Val.isErr])).1
  exact h.trans rfl

end Zapctxd
